import Mathlib

/-!
Verification of the NTS Radio CLI (`nts/cli.py`).

The development shallowly embeds the schedule-normalization core of the
program: time formatting (`format_time`, `format_time_range`), title
normalization (`format_show_title`), the schedule projections of the
`now` and `schedule` commands, the broadcast-fetch error classification
(`get_nts_data`, `fetch_nts_data_with_status`), mixtape resolution and
the continuous-random-play loop of the `infinite` command.

Python strings are modelled as Lean `String`s, dictionaries of `next{i}`
keys as association lists over `Nat`, exceptions as `Except`/`Option`,
and the process-local timezone as an explicit offset (in minutes) passed
to the time formatter.
-/

namespace NTSCli

/-- Python's substring test `needle in haystack`. -/
def pyIn (needle haystack : String) : Bool :=
  decide (needle.toList <:+: haystack.toList)

/-- `LIVE_INDICATOR = "🔴"` from `nts/cli.py`. -/
def LIVE_INDICATOR : String := "🔴"

/-!  ## Time model

`format_time` in the source does
`datetime.fromisoformat(timestamp.replace("Z", "+00:00")).astimezone().strftime("%H:%M")`.
We model `datetime.fromisoformat` on the granularity the program uses:
a complete date, a `T` separator, a complete time with seconds, and an
optional `±HH:MM` offset (the stdlib parser validates all field ranges
and rejects a trailing `Z`, which is why the source normalises `Z` away
first).  `astimezone()` is modelled by an explicit local-offset
parameter; on a naive datetime it keeps the wall-clock time, matching
CPython's interpretation of naive datetimes as local time. -/

/-- A parsed `datetime`: fields plus an optional UTC offset in minutes
(`none` models a naive datetime). -/
structure PyDateTime where
  year : Nat
  month : Nat
  day : Nat
  hour : Nat
  minute : Nat
  second : Nat
  offsetMinutes : Option Int
deriving Repr, DecidableEq

/-- Gregorian leap-year rule, as used by `datetime`'s day-of-month check. -/
def isLeap (y : Nat) : Bool :=
  (y % 4 == 0 && y % 100 != 0) || (y % 400 == 0)

/-- Number of days of month `m` of year `y`. -/
def daysInMonth (y m : Nat) : Nat :=
  if m = 2 then (if isLeap y then 29 else 28)
  else if m = 4 ∨ m = 6 ∨ m = 9 ∨ m = 11 then 30
  else 31

/-- Numeric value of a decimal digit character. -/
def digitVal (c : Char) : Nat := c.toNat - 48

/-- Two decimal digit characters as a number. -/
def num2 (a b : Char) : Nat := 10 * digitVal a + digitVal b

/-- Four decimal digit characters as a number. -/
def num4 (a b c d : Char) : Nat :=
  1000 * digitVal a + 100 * digitVal b + 10 * digitVal c + digitVal d

/-- Field validation of `datetime`: year at least `MINYEAR`, month and
day-of-month in range, time fields in range, offset below 24 hours in
magnitude.  Returns the constructed datetime, or `none` (a raised
`ValueError`). -/
def mkValidated (y mo d h mi s : Nat) (off : Option Int) : Option PyDateTime :=
  if 1 ≤ y ∧ 1 ≤ mo ∧ mo ≤ 12 ∧ 1 ≤ d ∧ d ≤ daysInMonth y mo ∧
     h ≤ 23 ∧ mi ≤ 59 ∧ s ≤ 59 ∧
     (∀ o, off = some o → -1440 < o ∧ o < 1440) then
    some ⟨y, mo, d, h, mi, s, off⟩
  else none

/-- `datetime.fromisoformat` on a character list: either the 19-character
naive form `YYYY-MM-DDTHH:MM:SS` or the 25-character offset form
`YYYY-MM-DDTHH:MM:SS±HH:MM`; anything else raises (`none`). -/
def fromisoChars : List Char → Option PyDateTime
  | [y1, y2, y3, y4, '-', m1, m2, '-', d1, d2, 'T',
     h1, h2, ':', n1, n2, ':', s1, s2] =>
    if [y1, y2, y3, y4, m1, m2, d1, d2, h1, h2, n1, n2, s1, s2].all Char.isDigit then
      mkValidated (num4 y1 y2 y3 y4) (num2 m1 m2) (num2 d1 d2)
        (num2 h1 h2) (num2 n1 n2) (num2 s1 s2) none
    else none
  | [y1, y2, y3, y4, '-', m1, m2, '-', d1, d2, 'T',
     h1, h2, ':', n1, n2, ':', s1, s2, sg, o1, o2, ':', o3, o4] =>
    if ([y1, y2, y3, y4, m1, m2, d1, d2, h1, h2, n1, n2, s1, s2,
         o1, o2, o3, o4].all Char.isDigit && (sg == '+' || sg == '-')) then
      mkValidated (num4 y1 y2 y3 y4) (num2 m1 m2) (num2 d1 d2)
        (num2 h1 h2) (num2 n1 n2) (num2 s1 s2)
        (some ((if sg == '+' then 1 else -1) * (60 * num2 o1 o2 + num2 o3 o4)))
    else none
  | _ => none

/-- `datetime.fromisoformat` on a string. -/
def fromisoformat (s : String) : Option PyDateTime := fromisoChars s.data

/-- `timestamp.replace("Z", "+00:00")` on a character list: every
occurrence of the one-character pattern `Z` is substituted. -/
def replaceZ : List Char → List Char
  | [] => []
  | c :: rest => (if c = 'Z' then ['+', '0', '0', ':', '0', '0'] else [c]) ++ replaceZ rest

/-- `timestamp.replace("Z", "+00:00")` on a string. -/
def pyReplaceZ (s : String) : String := ⟨replaceZ s.data⟩

/-- The refinement side of the validity claim, following the spec's
words: a valid ISO-8601 UTC timestamp, at the granularity of this
development — a complete `YYYY-MM-DDTHH:MM:SS` datetime with valid
fields carrying either no UTC designator, a numeric `±HH:MM` offset, or
a trailing literal `Z` as UTC offset.  (Stated over character lists;
defined independently of the `Z`-normalisation the code performs.) -/
def validIsoChars (l : List Char) : Bool :=
  match fromisoChars l with
  | some _ => true
  | none =>
    if l.getLast? = some 'Z' then
      match fromisoChars l.dropLast with
      | some dt => dt.offsetMinutes.isNone
      | none => false
    else false

/-- String form of `validIsoChars`. -/
def isValidISO8601 (s : String) : Bool := validIsoChars s.data

/-- `astimezone()` followed by extracting hour and minute: an aware
datetime is shifted from its own offset to the local offset `tz`
(minutes); a naive datetime keeps its wall-clock time. -/
def localHM (dt : PyDateTime) (tz : Int) : Nat × Nat :=
  match dt.offsetMinutes with
  | none => (dt.hour, dt.minute)
  | some off =>
    let m : Int := (dt.hour * 60 + dt.minute : Nat) - off + tz
    let mm := (m % 1440).toNat
    (mm / 60, mm % 60)

/-- A decimal digit character. -/
def dchar (k : Nat) : Char := Char.ofNat (48 + k % 10)

/-- Two-digit zero-padded rendering, as `%H` / `%M` produce. -/
def two (n : Nat) : String := ⟨[dchar (n / 10), dchar n]⟩

/-- `strftime("%H:%M")`. -/
def strftimeHM (h m : Nat) : String := two h ++ ":" ++ two m

/-- `format_time` from `nts/cli.py`: normalise `Z`, parse, convert to
the local timezone `tz`, render `HH:MM`.  `none` models the raised
`ValueError` on an unparsable timestamp. -/
def format_time (tz : Int) (timestamp : String) : Option String :=
  (fromisoformat (pyReplaceZ timestamp)).map fun dt =>
    strftimeHM (localHM dt tz).1 (localHM dt tz).2

/-- One broadcast slot of the live document (the fields the program reads). -/
structure Slot where
  broadcast_title : String
  start_timestamp : String
  end_timestamp : String
deriving Repr, DecidableEq

/-- `format_time_range` from `nts/cli.py`:
`f"{format_time(show['start_timestamp'])} - {format_time(show['end_timestamp'])}"`. -/
def format_time_range (tz : Int) (sh : Slot) : Option String :=
  match format_time tz sh.start_timestamp, format_time tz sh.end_timestamp with
  | some a, some b => some (a ++ " - " ++ b)
  | _, _ => none

/-- `format_show_title` from `nts/cli.py`, parameterised by the HTML
entity decoder `u` (the stdlib's `html.unescape`):
decode, then append the live indicator unless `"(R)"` occurs. -/
def format_show_title (u : String → String) (title : String) : String :=
  let t := u title
  if pyIn "(R)" t then t else t ++ " " ++ LIVE_INDICATOR

/-!  ## Channel documents and the two projections

A channel of the live document is a JSON object with a `now` slot and
`next1`, `next2`, … keys.  The dictionary of `next{i}` keys is modelled
as an association list over the index `i`; `channel.get(f"next{i}")` is
`lookup`. -/

/-- One channel of the live document. -/
structure Channel where
  now : Slot
  next : List (Nat × Slot)
deriving Repr, DecidableEq

/-- `channel.get(f"next{i}")`. -/
def getNext (c : Channel) (i : Nat) : Option Slot := c.next.lookup i

/-- The slots the `for i in range(1, k+1)` scan emits: indices `1..k`,
keeping exactly the present slots, in index order (absent indices are
skipped without stopping the scan).  The `now` view scans with `k = 5`,
the `schedule` view with `k = 17`. -/
def upcomingSlots (c : Channel) (k : Nat) : List Slot :=
  (List.range' 1 k).filterMap (getNext c)

/-- A rendered row: the time range and the formatted title.  (A display
entry of the spec; `isLive` is determined by the presence of the live
indicator appended by `format_show_title`.) -/
structure DisplayRow where
  time : String
  title : String
deriving Repr, DecidableEq

/-- The row built for one slot: `format_time_range` (which may raise on
a malformed timestamp) plus `format_show_title`. -/
def slotRow (u : String → String) (tz : Int) (s : Slot) : Option DisplayRow :=
  (format_time_range tz s).map fun t => ⟨t, format_show_title u s.broadcast_title⟩

/-- Rows for a list of slots, in order; the first raising slot aborts
the command (`none`). -/
def rowsAll (u : String → String) (tz : Int) : List Slot → Option (List DisplayRow)
  | [] => some []
  | s :: rest =>
    match slotRow u tz s, rowsAll u tz rest with
    | some r, some rs => some (r :: rs)
    | _, _ => none

/-- `create_upcoming_table` from `nts/cli.py`: rows for the present
slots among `next1..next5`. -/
def create_upcoming_table (u : String → String) (tz : Int) (c : Channel) :
    Option (List DisplayRow) :=
  rowsAll u tz (upcomingSlots c 5)

/-- The rows of the `now` view for one channel (`create_show_panel`):
the current show's row followed by the upcoming table. -/
def create_show_panel (u : String → String) (tz : Int) (c : Channel) :
    Option (List DisplayRow) :=
  match slotRow u tz c.now, create_upcoming_table u tz c with
  | some r, some rs => some (r :: rs)
  | _, _ => none

/-- The rows of the `schedule` view for one channel: the current show's
row, then rows for the present slots among `next1..next17`. -/
def schedule_rows (u : String → String) (tz : Int) (c : Channel) :
    Option (List DisplayRow) :=
  match slotRow u tz c.now, rowsAll u tz (upcomingSlots c 17) with
  | some r, some rs => some (r :: rs)
  | _, _ => none

/-- The spec's `ChannelState` — a current slot plus an ordered sequence
of upcoming slots — embedded as a channel document whose `next{i}` keys
are `1..|upcoming|` in order. -/
def chanOfState (now : Slot) (upcoming : List Slot) : Channel :=
  ⟨now, (List.range' 1 upcoming.length).zip upcoming⟩

/-!  ## Broadcast fetch and error classification

`get_nts_data` catches `requests.exceptions.ConnectionError` and
`requests.exceptions.RequestException` and turns them into a
`(None, message)` pair; every other exception escapes.  A fetch attempt
is modelled by its outcome event; exceptions are carried by `Except`
with the exception's rendering as payload. -/

/-- The live document: the `results` list of channels. -/
def NtsDoc := List Channel

/-- Outcome of the underlying `requests.get(...)` + `.json()` call:
a connection error, another `requests` exception, an exception of any
other class (e.g. a JSON parse error), or a parsed document. -/
inductive FetchEvent where
  | connectionError
  | requestException
  | otherException (e : String)
  | success (doc : NtsDoc)

/-- `get_nts_data` from `nts/cli.py`: the `except (ConnectionError,
RequestException)` clause yields `(None, "Network error: ...")`; other
exceptions propagate. -/
def get_nts_data : FetchEvent → Except String (Option NtsDoc × Option String)
  | .connectionError => .ok (none, some "Network error: Could not connect to the NTS API")
  | .requestException => .ok (none, some "Network error: Could not connect to the NTS API")
  | .otherException e => .error e
  | .success doc => .ok (some doc, none)

/-- `fetch_nts_data_with_status` from `nts/cli.py`: on an error message
print `Error: ...` and return `None`; re-raise anything else.  Returns
the document (if any) and the printed lines. -/
def fetch_nts_data_with_status (ev : FetchEvent) :
    Except String (Option NtsDoc × List String) :=
  match get_nts_data ev with
  | .error e => .error e
  | .ok (_, some err) => .ok (none, ["Error: " ++ err])
  | .ok (d, none) => .ok (d, [])

/-- The shared skeleton of the `now` / `schedule` / `json` commands:
fetch with status, return early (exit code 0) when no data came back,
otherwise render.  `render` is the command body, which may itself raise. -/
def run_fetch_command (render : NtsDoc → Except String (List String))
    (ev : FetchEvent) : Except String (Nat × List String) :=
  match fetch_nts_data_with_status ev with
  | .error e => .error e
  | .ok (none, msgs) => .ok (0, msgs)
  | .ok (some d, msgs) =>
    match render d with
    | .error e => .error e
    | .ok out => .ok (0, msgs ++ out)

/-!  ## Mixtapes -/

/-- One entry of the mixtape catalog (the fields the program reads). -/
structure Mixtape where
  title : String
  subtitle : String
  description : String
  mixtape_alias : String
  audio_stream_endpoint : String
deriving Repr, DecidableEq

/-- Python's `str.lower()`: lower-case character by character. -/
def pyLower (s : String) : String := ⟨s.data.map Char.toLower⟩

/-- The match test of the `--play` / `--info` loops of `infinite`:
`mixtape["mixtape_alias"].lower() == name.lower() or
 mixtape["title"].lower() == name.lower()`. -/
def matchesName (name : String) (m : Mixtape) : Bool :=
  (pyLower m.mixtape_alias == pyLower name) || (pyLower m.title == pyLower name)

/-- The resolution loop of `infinite`: scan the catalog in order and
return the first matching entry; `none` models the `not found` message. -/
def resolve_mixtape (catalog : List Mixtape) (name : String) : Option Mixtape :=
  catalog.find? (matchesName name)

/-!  ## The continuous-random-play loop

Each iteration of `while True:` in `infinite --random` picks a mixtape
and runs `mpv`; the iteration's outcome is one of four events.  A finite
event trace determines how the loop ends: `some code` is `sys.exit(code)`,
`none` means the trace ended with the loop still running. -/

/-- Outcome of one iteration of the random-play loop. -/
inductive PlayEvent where
  | playOk
  | calledProcessError
  | fileNotFound
  | keyboardInterrupt
deriving Repr, DecidableEq

/-- The `while True:` loop of `infinite --random`: a clean player exit
or a `CalledProcessError` continues the loop, a missing player exits
with code 1, a `KeyboardInterrupt` exits with code 0. -/
def infinite_random_loop : List PlayEvent → Option Nat
  | [] => none
  | .playOk :: rest => infinite_random_loop rest
  | .calledProcessError :: rest => infinite_random_loop rest
  | .fileNotFound :: _ => some 1
  | .keyboardInterrupt :: _ => some 0

/-- Number of occurrences of `needle` as a contiguous substring of the
haystack, counted at every start position. -/
def countSub (needle : List Char) : List Char → Nat
  | [] => if needle.isPrefixOf ([] : List Char) then 1 else 0
  | c :: rest => (if needle.isPrefixOf (c :: rest) then 1 else 0) + countSub needle rest

/-!  ## Concrete demonstration data (shared by witnesses) -/

/-- A well-formed slot, as in the repository's tests. -/
def testSlot : Slot :=
  ⟨"Test Show", "2024-03-14T15:00:00Z", "2024-03-14T17:00:00Z"⟩

/-- A later well-formed slot. -/
def laterSlot : Slot :=
  ⟨"Upcoming Show 1", "2024-03-14T17:00:00Z", "2024-03-14T19:00:00Z"⟩

/-!  ## General lemmas -/

theorem rowsAll_length (u : String → String) (tz : Int) :
    ∀ (l : List Slot) (rs : List DisplayRow),
      rowsAll u tz l = some rs → rs.length = l.length := by
  intro l
  induction l with
  | nil => intro rs h; simp [rowsAll] at h; simp [← h]
  | cons s rest ih =>
    intro rs h
    unfold rowsAll at h
    cases h1 : slotRow u tz s with
    | none => rw [h1] at h; simp at h
    | some r =>
      rw [h1] at h
      cases h2 : rowsAll u tz rest with
      | none => rw [h2] at h; simp at h
      | some rs' =>
        rw [h2] at h
        simp at h
        simp [← h, ih rs' h2]

theorem upcomingSlots_length_le (c : Channel) (k : Nat) :
    (upcomingSlots c k).length ≤ k := by
  calc (upcomingSlots c k).length ≤ (List.range' 1 k).length :=
        List.length_filterMap_le _ _
    _ = k := List.length_range' ..

theorem filterMap_eq_filter_map {α β : Type} (f : α → Option β) (d : β) (l : List α) :
    l.filterMap f =
      (l.filter (fun i => (f i).isSome)).map (fun i => (f i).getD d) := by
  induction l with
  | nil => rfl
  | cons a rest ih =>
    cases h : f a <;> simp [List.filterMap_cons, List.filter_cons, h, ih]

theorem lookup_zip_range' {α : Type} (up : List α) :
    ∀ (s i : Nat), ((List.range' s up.length).zip up).lookup i =
      if s ≤ i then up[i - s]? else none := by
  induction up with
  | nil => intro s i; simp
  | cons a rest ih =>
    intro s i
    have hzip : (List.range' s (a :: rest).length).zip (a :: rest) =
        (s, a) :: (List.range' (s + 1) rest.length).zip rest := by
      simp [List.range'_succ]
    rw [hzip]
    by_cases his : i = s
    · subst his
      simp [List.lookup]
    · have hbe : (i == s) = false := by simp [his]
      have hstep : ((s, a) :: (List.range' (s + 1) rest.length).zip rest).lookup i =
          ((List.range' (s + 1) rest.length).zip rest).lookup i := by
        simp [List.lookup, hbe]
      rw [hstep, ih (s + 1) i]
      by_cases hle : s ≤ i
      · have h1 : s + 1 ≤ i := by omega
        have h2 : i - s = (i - (s + 1)) + 1 := by omega
        simp [hle, h1, h2]
      · have h1 : ¬ (s + 1 ≤ i) := by omega
        simp [hle, h1]

theorem getNext_chanOfState (now : Slot) (up : List Slot) (i : Nat) :
    getNext (chanOfState now up) i = if 1 ≤ i then up[i - 1]? else none := by
  simp [getNext, chanOfState, lookup_zip_range']

theorem filterMap_getElem_range {α : Type} (up : List α) :
    ∀ k : Nat, (List.range k).filterMap (fun i => up[i]?) = up.take k := by
  intro k
  induction k with
  | zero => simp
  | succ k ih =>
    rw [List.range_succ, List.filterMap_append, ih, List.take_succ]
    cases h : up[k]? <;> simp [h]

theorem upcomingSlots_chanOfState (now : Slot) (up : List Slot) (k : Nat) :
    upcomingSlots (chanOfState now up) k = up.take k := by
  unfold upcomingSlots
  rw [List.range'_eq_map_range]
  rw [List.filterMap_map]
  have : ((fun i => getNext (chanOfState now up) i) ∘ (fun i => 1 + i)) =
      fun i => up[i]? := by
    funext i
    simp [getNext_chanOfState]
  rw [this, filterMap_getElem_range]

/-!  ## Lemmas about the time model -/

theorem dchar_isDigit (k : Nat) : (dchar k).isDigit = true := by
  unfold dchar
  have h10 : k % 10 < 10 := Nat.mod_lt _ (by norm_num)
  generalize k % 10 = n at h10 ⊢
  interval_cases n <;> decide

theorem digit_ne_plus {c : Char} (h : c.isDigit = true) : c ≠ '+' := by
  rintro rfl
  exact absurd h (by decide)

theorem digit_ne_Z {c : Char} (h : c.isDigit = true) : c ≠ 'Z' := by
  rintro rfl
  exact absurd h (by decide)

theorem digit_ne_space {c : Char} (h : c.isDigit = true) : c ≠ ' ' := by
  rintro rfl
  exact absurd h (by decide)

theorem digit_ne_dash {c : Char} (h : c.isDigit = true) : c ≠ '-' := by
  rintro rfl
  exact absurd h (by decide)

theorem mkValidated_some {y mo d h mi s : Nat} {off : Option Int} {dt : PyDateTime}
    (hmk : mkValidated y mo d h mi s off = some dt) :
    dt = ⟨y, mo, d, h, mi, s, off⟩ ∧ 1 ≤ y ∧ 1 ≤ mo ∧ mo ≤ 12 ∧ 1 ≤ d ∧
      d ≤ daysInMonth y mo ∧ h ≤ 23 ∧ mi ≤ 59 ∧ s ≤ 59 ∧
      (∀ o, off = some o → -1440 < o ∧ o < 1440) := by
  unfold mkValidated at hmk
  split at hmk
  · rename_i hcond
    cases hmk
    exact ⟨rfl, hcond⟩
  · cases hmk

theorem mkValidated_of (y mo d h mi s : Nat) (off : Option Int)
    (hcond : 1 ≤ y ∧ 1 ≤ mo ∧ mo ≤ 12 ∧ 1 ≤ d ∧ d ≤ daysInMonth y mo ∧
      h ≤ 23 ∧ mi ≤ 59 ∧ s ≤ 59 ∧
      (∀ o, off = some o → -1440 < o ∧ o < 1440)) :
    mkValidated y mo d h mi s off = some ⟨y, mo, d, h, mi, s, off⟩ := by
  unfold mkValidated
  rw [if_pos hcond]

theorem fromisoChars_hour_minute {l : List Char} {dt : PyDateTime}
    (h : fromisoChars l = some dt) : dt.hour ≤ 23 ∧ dt.minute ≤ 59 := by
  unfold fromisoChars at h
  split at h
  · split at h
    · obtain ⟨hdt, _, _, _, _, _, hh, hmi, _⟩ := mkValidated_some h
      subst hdt
      exact ⟨hh, hmi⟩
    · cases h
  · split at h
    · obtain ⟨hdt, _, _, _, _, _, hh, hmi, _⟩ := mkValidated_some h
      subst hdt
      exact ⟨hh, hmi⟩
    · cases h
  · cases h

theorem localHM_bounds (dt : PyDateTime) (tz : Int)
    (hh : dt.hour ≤ 23) (hm : dt.minute ≤ 59) :
    (localHM dt tz).1 < 24 ∧ (localHM dt tz).2 < 60 := by
  unfold localHM
  cases ho : dt.offsetMinutes with
  | none => refine ⟨?_, ?_⟩ <;> simp <;> omega
  | some off =>
    have h0 : 0 ≤ ((dt.hour * 60 + dt.minute : Nat) - off + tz) % 1440 :=
      Int.emod_nonneg _ (by norm_num)
    have h1 : ((dt.hour * 60 + dt.minute : Nat) - off + tz) % 1440 < 1440 :=
      Int.emod_lt_of_pos _ (by norm_num)
    constructor <;> simp only <;> omega

theorem two_length (n : Nat) : (two n).length = 2 := rfl

theorem strftimeHM_length (h m : Nat) : (strftimeHM h m).length = 5 := by
  simp [strftimeHM, String.length_append, two_length]
  rfl

theorem strftimeHM_chars (h m : Nat) :
    ∀ c ∈ (strftimeHM h m).data, c.isDigit = true ∨ c = ':' := by
  intro c hc
  have : (strftimeHM h m).data =
      [dchar (h / 10), dchar h, ':', dchar (m / 10), dchar m] := rfl
  rw [this] at hc
  fin_cases hc <;> first
    | exact Or.inl (dchar_isDigit _)
    | exact Or.inr rfl

theorem countSub_sep_zero {l : List Char} (h : ∀ c ∈ l, c ≠ ' ') :
    countSub [' ', '-', ' '] l = 0 := by
  induction l with
  | nil => rfl
  | cons c rest ih =>
    have hc : c ≠ ' ' := h c (List.mem_cons_self ..)
    have hpre : ([' ', '-', ' '].isPrefixOf (c :: rest)) = false := by
      simp [List.isPrefixOf]
      intro h'
      exact absurd h'.symm hc
    unfold countSub
    rw [hpre]
    simpa using ih fun x hx => h x (List.mem_cons_of_mem _ hx)

theorem countSub_sep_one {a b : List Char}
    (ha : ∀ c ∈ a, c ≠ ' ') (hb : ∀ c ∈ b, c ≠ ' ' ∧ c ≠ '-') :
    countSub [' ', '-', ' '] (a ++ ' ' :: '-' :: ' ' :: b) = 1 := by
  induction a with
  | nil =>
    simp only [List.nil_append]
    have h1 : ([' ', '-', ' '].isPrefixOf (' ' :: '-' :: ' ' :: b)) = true := by
      simp [List.isPrefixOf]
    have h2 : ([' ', '-', ' '].isPrefixOf ('-' :: ' ' :: b)) = false := by
      simp [List.isPrefixOf]
    have h3 : ([' ', '-', ' '].isPrefixOf (' ' :: b)) = false := by
      cases b with
      | nil => rfl
      | cons c bs =>
        have : c ≠ '-' := (hb c (List.mem_cons_self ..)).2
        simp [List.isPrefixOf]
        intro h'
        exact absurd h'.symm this
    have h4 : countSub [' ', '-', ' '] b = 0 :=
      countSub_sep_zero fun c hc => (hb c hc).1
    rw [show countSub [' ', '-', ' '] (' ' :: '-' :: ' ' :: b) =
      (if ([' ', '-', ' '].isPrefixOf (' ' :: '-' :: ' ' :: b)) then 1 else 0) +
      ((if ([' ', '-', ' '].isPrefixOf ('-' :: ' ' :: b)) then 1 else 0) +
      ((if ([' ', '-', ' '].isPrefixOf (' ' :: b)) then 1 else 0) +
        countSub [' ', '-', ' '] b)) from rfl]
    rw [h1, h2, h3, h4]
    norm_num
  | cons c a' ih =>
    have hc : c ≠ ' ' := ha c (List.mem_cons_self ..)
    have hpre : ([' ', '-', ' '].isPrefixOf
        (c :: (a' ++ ' ' :: '-' :: ' ' :: b))) = false := by
      simp [List.isPrefixOf]
      intro h'
      exact absurd h'.symm hc
    rw [List.cons_append]
    unfold countSub
    rw [hpre]
    simpa using ih fun x hx => ha x (List.mem_cons_of_mem _ hx)

/-!  ## Lemmas about `Z`-normalisation and the parser's shape -/

theorem replaceZ_append (a b : List Char) :
    replaceZ (a ++ b) = replaceZ a ++ replaceZ b := by
  induction a with
  | nil => rfl
  | cons c rest ih => simp [replaceZ, ih, List.append_assoc]

theorem replaceZ_of_noZ {l : List Char} (h : ∀ c ∈ l, c ≠ 'Z') :
    replaceZ l = l := by
  induction l with
  | nil => rfl
  | cons c rest ih =>
    have hc : c ≠ 'Z' := h c (List.mem_cons_self ..)
    simp [replaceZ, hc, ih fun x hx => h x (List.mem_cons_of_mem _ hx)]

theorem replaceZ_eq_nil {l : List Char} (h : replaceZ l = []) : l = [] := by
  cases l with
  | nil => rfl
  | cons c rest =>
    exfalso
    by_cases hc : c = 'Z' <;> simp [replaceZ, hc] at h

theorem mem_split_first {l : List Char} (h : 'Z' ∈ l) :
    ∃ pre suf, l = pre ++ 'Z' :: suf ∧ ∀ c ∈ pre, c ≠ 'Z' := by
  induction l with
  | nil => cases h
  | cons a rest ih =>
    by_cases ha : a = 'Z'
    · subst ha
      exact ⟨[], rest, rfl, by simp⟩
    · have h' : 'Z' ∈ rest := by
        rcases List.mem_cons.mp h with he | hm
        · exact absurd he.symm ha
        · exact hm
      obtain ⟨pre, suf, heq, hpre⟩ := ih h'
      refine ⟨a :: pre, suf, by simp [heq], fun c hc => ?_⟩
      rcases List.mem_cons.mp hc with rfl | hm
      · exact ha
      · exact hpre c hm

theorem mem_of_getLast?_eq {l : List Char} {a : Char}
    (h : l.getLast? = some a) : a ∈ l := by
  have hx : a ∈ l.getLast? := Option.mem_def.mpr h
  obtain ⟨h', he⟩ := List.mem_getLast?_eq_getLast hx
  rw [he]
  exact List.getLast_mem h'

theorem eq_dropLast_concat {l : List Char} {a : Char}
    (h : l.getLast? = some a) : l = l.dropLast ++ [a] := by
  have hne : l ≠ [] := by rintro rfl; simp at h
  have hx : a ∈ l.getLast? := Option.mem_def.mpr h
  obtain ⟨h', he⟩ := List.mem_getLast?_eq_getLast hx
  rw [he]
  exact (List.dropLast_append_getLast h').symm

/-- Inversion of the parser: a parsed character list is one of the two
fixed-width forms; it never contains `Z`, a `+` can only be the offset
sign at position 19, and in the offset form the first 19 characters
parse on their own as the naive datetime with the same fields. -/
theorem fromisoChars_shape {l : List Char} {dt : PyDateTime}
    (h : fromisoChars l = some dt) :
    (∀ c ∈ l, c ≠ 'Z') ∧
    ((l.length = 19 ∧ dt.offsetMinutes = none ∧ ∀ c ∈ l, c ≠ '+') ∨
     (l.length = 25 ∧ (∃ o, dt.offsetMinutes = some o) ∧
       (∀ c ∈ l.take 19, c ≠ '+') ∧
       fromisoChars (l.take 19) =
         some ⟨dt.year, dt.month, dt.day, dt.hour, dt.minute, dt.second, none⟩)) := by
  unfold fromisoChars at h
  split at h
  · rename_i y1 y2 y3 y4 m1 m2 d1 d2 h1 h2 n1 n2 s1 s2
    split at h
    · rename_i hdig
      rw [List.all_eq_true] at hdig
      obtain ⟨hdt, -⟩ := mkValidated_some h
      subst hdt
      refine ⟨?_, Or.inl ⟨rfl, rfl, ?_⟩⟩
      · intro c hc
        fin_cases hc <;> first
          | decide
          | exact digit_ne_Z (hdig _ (by simp))
      · intro c hc
        fin_cases hc <;> first
          | decide
          | exact digit_ne_plus (hdig _ (by simp))
    · cases h
  · rename_i y1 y2 y3 y4 m1 m2 d1 d2 h1 h2 n1 n2 s1 s2 sg o1 o2 o3 o4
    split at h
    · rename_i hcond
      rw [Bool.and_eq_true] at hcond
      obtain ⟨hdig, hsg⟩ := hcond
      rw [List.all_eq_true] at hdig
      have hsg2 : sg = '+' ∨ sg = '-' := by simpa using hsg
      obtain ⟨hdt, hy, hmo1, hmo2, hd1, hd2, hh, hmi, hs, -⟩ := mkValidated_some h
      subst hdt
      refine ⟨?_, Or.inr ⟨rfl, ⟨_, rfl⟩, ?_, ?_⟩⟩
      · intro c hc
        fin_cases hc <;> first
          | decide
          | (rcases hsg2 with rfl | rfl <;> decide)
          | exact digit_ne_Z (hdig _ (by simp))
      · intro c hc
        have ht : ([y1, y2, y3, y4, '-', m1, m2, '-', d1, d2, 'T',
            h1, h2, ':', n1, n2, ':', s1, s2, sg, o1, o2, ':', o3, o4].take 19) =
            [y1, y2, y3, y4, '-', m1, m2, '-', d1, d2, 'T',
             h1, h2, ':', n1, n2, ':', s1, s2] := rfl
        rw [ht] at hc
        fin_cases hc <;> first
          | decide
          | exact digit_ne_plus (hdig _ (by simp))
      · have ht : ([y1, y2, y3, y4, '-', m1, m2, '-', d1, d2, 'T',
            h1, h2, ':', n1, n2, ':', s1, s2, sg, o1, o2, ':', o3, o4].take 19) =
            [y1, y2, y3, y4, '-', m1, m2, '-', d1, d2, 'T',
             h1, h2, ':', n1, n2, ':', s1, s2] := rfl
        rw [ht]
        have hall : ([y1, y2, y3, y4, m1, m2, d1, d2, h1, h2,
            n1, n2, s1, s2].all Char.isDigit) = true := by
          rw [List.all_eq_true]
          intro c hc
          apply hdig
          fin_cases hc <;> simp
        show (if ([y1, y2, y3, y4, m1, m2, d1, d2, h1, h2,
              n1, n2, s1, s2].all Char.isDigit) = true then
            mkValidated (num4 y1 y2 y3 y4) (num2 m1 m2) (num2 d1 d2)
              (num2 h1 h2) (num2 n1 n2) (num2 s1 s2) none
          else none) = _
        rw [if_pos hall]
        exact mkValidated_of _ _ _ _ _ _ _
          ⟨hy, hmo1, hmo2, hd1, hd2, hh, hmi, hs, fun o ho => by cases ho⟩
    · cases h
  · cases h

/-- A naive parse stays valid when the UTC offset block `+00:00` is
appended, and the fields carry over with offset `0`. -/
theorem fromisoChars_append_utc {m : List Char} {dt : PyDateTime}
    (h : fromisoChars m = some dt) (hn : dt.offsetMinutes = none) :
    fromisoChars (m ++ ['+', '0', '0', ':', '0', '0']) =
      some ⟨dt.year, dt.month, dt.day, dt.hour, dt.minute, dt.second, some 0⟩ := by
  unfold fromisoChars at h
  split at h
  · rename_i y1 y2 y3 y4 m1 m2 d1 d2 h1 h2 n1 n2 s1 s2
    split at h
    · rename_i hdig
      rw [List.all_eq_true] at hdig
      obtain ⟨hdt, hy, hmo1, hmo2, hd1, hd2, hh, hmi, hs, -⟩ := mkValidated_some h
      subst hdt
      have hall : ([y1, y2, y3, y4, m1, m2, d1, d2, h1, h2, n1, n2, s1, s2,
          '0', '0', '0', '0'].all Char.isDigit && (('+' : Char) == '+' || ('+' : Char) == '-')) =
          true := by
        rw [Bool.and_eq_true]
        refine ⟨?_, by decide⟩
        rw [List.all_eq_true]
        intro c hc
        fin_cases hc <;> first
          | decide
          | exact hdig _ (by simp)
      show (if ([y1, y2, y3, y4, m1, m2, d1, d2, h1, h2, n1, n2, s1, s2,
            '0', '0', '0', '0'].all Char.isDigit &&
            (('+' : Char) == '+' || ('+' : Char) == '-')) = true then
          mkValidated (num4 y1 y2 y3 y4) (num2 m1 m2) (num2 d1 d2)
            (num2 h1 h2) (num2 n1 n2) (num2 s1 s2)
            (some ((if ('+' : Char) == '+' then 1 else -1) *
              (60 * num2 '0' '0' + num2 '0' '0')))
        else none) = _
      rw [if_pos hall]
      have hzero : ((if (('+' : Char) == '+') = true then (1 : Int) else -1) *
          (60 * (num2 '0' '0' : Nat) + (num2 '0' '0' : Nat))) = 0 := by decide
      rw [hzero]
      exact mkValidated_of _ _ _ _ _ _ _
        ⟨hy, hmo1, hmo2, hd1, hd2, hh, hmi, hs, fun o ho => by cases ho; decide⟩
    · cases h
  · rename_i y1 y2 y3 y4 m1 m2 d1 d2 h1 h2 n1 n2 s1 s2 sg o1 o2 o3 o4
    split at h
    · obtain ⟨hdt, -⟩ := mkValidated_some h
      subst hdt
      cases hn
    · cases h
  · cases h

/-- Forward direction of C7: a valid timestamp is accepted by the
normalise-then-parse pipeline. -/
theorem parse_of_valid {l : List Char} (h : validIsoChars l = true) :
    (fromisoChars (replaceZ l)).isSome = true := by
  unfold validIsoChars at h
  split at h
  · rename_i dt hf
    rw [replaceZ_of_noZ (fromisoChars_shape hf).1, hf]
    rfl
  · split at h
    · rename_i hlast
      split at h
      · rename_i dt hdrop
        have hn : dt.offsetMinutes = none := Option.isNone_iff_eq_none.mp h
        have hl : l = l.dropLast ++ ['Z'] := eq_dropLast_concat hlast
        rw [hl, replaceZ_append, replaceZ_of_noZ (fromisoChars_shape hdrop).1]
        have hblock : replaceZ ['Z'] = ['+', '0', '0', ':', '0', '0'] := rfl
        rw [hblock, fromisoChars_append_utc hdrop hn]
        rfl
      · cases h
    · cases h

/-- Backward direction of C7: a timestamp accepted by the
normalise-then-parse pipeline is valid. -/
theorem valid_of_parse {l : List Char} {dt : PyDateTime}
    (hf : fromisoChars (replaceZ l) = some dt) : validIsoChars l = true := by
  by_cases hz : 'Z' ∈ l
  · obtain ⟨pre, suf, rfl, hpre⟩ := mem_split_first hz
    rw [replaceZ_append, replaceZ_of_noZ hpre] at hf
    have hstep : replaceZ ('Z' :: suf) =
        '+' :: '0' :: '0' :: ':' :: '0' :: '0' :: replaceZ suf := rfl
    rw [hstep] at hf
    obtain ⟨hnoZ, hcase⟩ := fromisoChars_shape hf
    rcases hcase with ⟨hlen, -, hnoplus⟩ | ⟨hlen, -, hnp19, hparse19⟩
    · exact absurd rfl
        (hnoplus '+' (List.mem_append_right _ (List.mem_cons_self ..)))
    · have hlen' : pre.length + 6 + (replaceZ suf).length = 25 := by
        rw [List.length_append] at hlen
        simp at hlen
        omega
      by_cases hlt : pre.length < 19
      · exfalso
        obtain ⟨k, hk⟩ : ∃ k, 19 - pre.length = k + 1 := ⟨19 - pre.length - 1, by omega⟩
        have hmem : '+' ∈ (pre ++ '+' :: '0' :: '0' :: ':' :: '0' :: '0' ::
            replaceZ suf).take 19 := by
          rw [List.take_append_eq_append_take, List.take_of_length_le (by omega), hk,
            List.take_succ_cons]
          exact List.mem_append_right _ (List.mem_cons_self ..)
        exact absurd rfl (hnp19 '+' hmem)
      · have hpl : pre.length = 19 := by omega
        have hsufz : replaceZ suf = [] := by
          have hz0 : (replaceZ suf).length = 0 := by omega
          exact List.length_eq_zero.mp hz0
        have hsuf : suf = [] := replaceZ_eq_nil hsufz
        subst hsuf
        have htake : (pre ++ '+' :: '0' :: '0' :: ':' :: '0' :: '0' ::
            replaceZ ([] : List Char)).take 19 = pre := by
          rw [List.take_append_eq_append_take, List.take_of_length_le (by omega), hpl]
          simp
        rw [htake] at hparse19
        unfold validIsoChars
        have hfl : fromisoChars (pre ++ 'Z' :: ([] : List Char)) = none := by
          cases hq : fromisoChars (pre ++ 'Z' :: ([] : List Char)) with
          | none => rfl
          | some dt' =>
            exfalso
            obtain ⟨-, hc⟩ := fromisoChars_shape hq
            rcases hc with ⟨hl19, -, -⟩ | ⟨hl25, -⟩
            · rw [List.length_append, hpl] at hl19
              simp at hl19
            · rw [List.length_append, hpl] at hl25
              simp at hl25
        rw [hfl]
        have hgl : (pre ++ 'Z' :: ([] : List Char)).getLast? = some 'Z' :=
          List.getLast?_concat _
        rw [if_pos hgl]
        have hdrop : (pre ++ 'Z' :: ([] : List Char)).dropLast = pre :=
          List.dropLast_concat
        rw [hdrop, hparse19]
        rfl
  · have hnoZ : ∀ c ∈ l, c ≠ 'Z' := fun c hc he => hz (he ▸ hc)
    rw [replaceZ_of_noZ hnoZ] at hf
    unfold validIsoChars
    rw [hf]

/-!  ## Claim theorems -/

/-- C3: `format_show_title` first HTML-entity-decodes the title (via the
decoder `u`); if the decoded title contains the literal substring
`"(R)"` the result is the decoded title unchanged, otherwise the result
is the decoded title followed by exactly one space and the fixed
live-indicator glyph `🔴`. -/
theorem format_show_title_spec (u : String → String) (title : String) :
    LIVE_INDICATOR = "🔴" ∧
    (pyIn "(R)" (u title) = true → format_show_title u title = u title) ∧
    (pyIn "(R)" (u title) = false →
      format_show_title u title = u title ++ " " ++ LIVE_INDICATOR) := by
  refine ⟨rfl, ?_, ?_⟩ <;> intro h <;> simp [format_show_title, h]

/-- Witness for C3: both branches at concrete titles. -/
theorem format_show_title_spec_witness :
    format_show_title id "Test Show (R)" = "Test Show (R)" ∧
    format_show_title id "Test Show" = "Test Show" ++ " " ++ LIVE_INDICATOR :=
  ⟨(format_show_title_spec id "Test Show (R)").2.1 (by decide),
   (format_show_title_spec id "Test Show").2.2 (by decide)⟩

/-- C9: in the continuous-random-play loop, a `KeyboardInterrupt` at any
point — i.e. after any number of iterations that either played
normally or hit a `CalledProcessError` — terminates the loop with
`sys.exit(0)`, a clean stop. -/
theorem infinite_random_loop_interrupt (pre rest : List PlayEvent)
    (h : ∀ e ∈ pre, e = PlayEvent.playOk ∨ e = PlayEvent.calledProcessError) :
    infinite_random_loop (pre ++ PlayEvent.keyboardInterrupt :: rest) = some 0 := by
  induction pre with
  | nil => rfl
  | cons e p ih =>
    have he := h e (List.mem_cons_self ..)
    have hp : ∀ x ∈ p, x = PlayEvent.playOk ∨ x = PlayEvent.calledProcessError :=
      fun x hx => h x (List.mem_cons_of_mem _ hx)
    rcases he with h1 | h1 <;> subst h1 <;>
      simpa [infinite_random_loop] using ih hp

/-- Witness for C9: an interrupt after a normal play and a player error
exits with code 0. -/
theorem infinite_random_loop_interrupt_witness :
    infinite_random_loop
      [PlayEvent.playOk, PlayEvent.calledProcessError,
       PlayEvent.keyboardInterrupt, PlayEvent.fileNotFound] = some 0 :=
  infinite_random_loop_interrupt
    [PlayEvent.playOk, PlayEvent.calledProcessError]
    [PlayEvent.fileNotFound] (by decide)

/-- C2: the broadcast fetch distinguishes failures: a connectivity
failure (`ConnectionError` or `RequestException`) makes the command
print a message containing `"Network error"` and finish normally with
exit code 0 (no traceback), while an exception of any other class
propagates unrecoverably out of the command. -/
theorem fetch_failure_classification (render : NtsDoc → Except String (List String))
    (ev : FetchEvent) :
    ((ev = FetchEvent.connectionError ∨ ev = FetchEvent.requestException) →
      ∃ msgs, run_fetch_command render ev = Except.ok (0, msgs) ∧
        ∃ m ∈ msgs, pyIn "Network error" m = true) ∧
    (∀ e, ev = FetchEvent.otherException e →
      run_fetch_command render ev = Except.error e) := by
  constructor
  · rintro (rfl | rfl) <;>
      exact ⟨["Error: " ++ "Network error: Could not connect to the NTS API"], rfl,
        "Error: " ++ "Network error: Could not connect to the NTS API",
        List.mem_singleton.mpr rfl, by decide⟩
  · rintro e rfl
    rfl

/-- Witness for C2: a concrete connection error under a trivial renderer
exits 0 with a `Network error` message, and a concrete JSON parse
exception propagates. -/
theorem fetch_failure_classification_witness :
    (∃ msgs, run_fetch_command (fun _ => Except.ok []) FetchEvent.connectionError =
        Except.ok (0, msgs) ∧ ∃ m ∈ msgs, pyIn "Network error" m = true) ∧
    run_fetch_command (fun _ => Except.ok [])
        (FetchEvent.otherException "json.decoder.JSONDecodeError") =
      Except.error "json.decoder.JSONDecodeError" :=
  ⟨(fetch_failure_classification (fun _ => Except.ok []) FetchEvent.connectionError).1
      (Or.inl rfl),
   (fetch_failure_classification (fun _ => Except.ok [])
      (FetchEvent.otherException "json.decoder.JSONDecodeError")).2 _ rfl⟩

/-- C4: the `now` view's panel for a channel has at most 6 entries — one
for the current show plus at most 5 upcoming ones — however many
`next{i}` slots the document supplies. -/
theorem create_show_panel_at_most_six (u : String → String) (tz : Int)
    (c : Channel) (rows : List DisplayRow)
    (h : create_show_panel u tz c = some rows) :
    rows.length ≤ 6 := by
  unfold create_show_panel at h
  cases h1 : slotRow u tz c.now with
  | none => rw [h1] at h; simp at h
  | some r =>
    rw [h1] at h
    cases h2 : create_upcoming_table u tz c with
    | none => rw [h2] at h; simp at h
    | some rs =>
      rw [h2] at h
      simp at h
      have hlen := rowsAll_length u tz (upcomingSlots c 5) rs h2
      have hle := upcomingSlots_length_le c 5
      simp [← h, hlen]
      omega

/-- Witness for C4: a channel offering 8 upcoming slots yields a panel
of exactly 6 entries. -/
theorem create_show_panel_at_most_six_witness :
    create_show_panel id 0 (chanOfState testSlot (List.replicate 8 laterSlot)) =
      some (⟨"15:00 - 17:00", "Test Show 🔴"⟩ ::
        List.replicate 5 ⟨"17:00 - 19:00", "Upcoming Show 1 🔴"⟩) ∧
    (⟨"15:00 - 17:00", "Test Show 🔴"⟩ ::
        List.replicate 5 (⟨"17:00 - 19:00", "Upcoming Show 1 🔴"⟩ : DisplayRow)).length ≤ 6 :=
  ⟨by decide,
   create_show_panel_at_most_six id 0
     (chanOfState testSlot (List.replicate 8 laterSlot)) _ (by decide)⟩

/-- C1 (amended): for a channel whose upcoming slots sit at keys
`next1..next|upcoming|`, the `schedule` view returns exactly
`1 + min |upcoming| 17` entries — the current show first, then the
upcoming slots, but capped at the 17 keys the scan reads.  This equals
`1 + |upcoming|` exactly when at most 17 upcoming slots are supplied. -/
theorem schedule_rows_length (u : String → String) (tz : Int) (now : Slot)
    (up : List Slot) (rows : List DisplayRow)
    (h : schedule_rows u tz (chanOfState now up) = some rows) :
    rows.length = 1 + min up.length 17 := by
  unfold schedule_rows at h
  cases h1 : slotRow u tz (chanOfState now up).now with
  | none => rw [h1] at h; simp at h
  | some r =>
    rw [h1] at h
    cases h2 : rowsAll u tz (upcomingSlots (chanOfState now up) 17) with
    | none => rw [h2] at h; simp at h
    | some rs =>
      rw [h2] at h
      simp at h
      have hlen := rowsAll_length u tz _ rs h2
      rw [upcomingSlots_chanOfState, List.length_take] at hlen
      simp [← h, hlen]
      omega

/-- Counterexample for C1 as stated: a channel document with 18
upcoming slots.  The schedule view returns 18 entries, not
`1 + |upcoming| = 19` — the scan stops at `next17`, so the projection
is capped. -/
theorem schedule_rows_not_uncapped :
    (schedule_rows id 0 (chanOfState testSlot (List.replicate 18 laterSlot))).map
        List.length = some 18 ∧
    (18 : Nat) ≠ 1 + (List.replicate 18 laterSlot (α := Slot)).length := by
  constructor
  · decide
  · decide

/-- Witness for C1 (amended): the 18-slot channel yields
`1 + min 18 17 = 18` entries. -/
theorem schedule_rows_length_witness :
    schedule_rows id 0 (chanOfState testSlot (List.replicate 18 laterSlot)) =
      some (⟨"15:00 - 17:00", "Test Show 🔴"⟩ ::
        List.replicate 17 ⟨"17:00 - 19:00", "Upcoming Show 1 🔴"⟩) ∧
    (⟨"15:00 - 17:00", "Test Show 🔴"⟩ ::
        List.replicate 17 (⟨"17:00 - 19:00", "Upcoming Show 1 🔴"⟩ : DisplayRow)).length =
      1 + min (List.replicate 18 laterSlot (α := Slot)).length 17 :=
  ⟨by decide,
   schedule_rows_length id 0 testSlot (List.replicate 18 laterSlot) _ (by decide)⟩

/-- C10: in both views the scan over slot keys is positional and
independent: the emitted upcoming slots are exactly the present
(non-null) ones among keys `next1..next17` (`schedule`) respectively
`next1..next5` (`now`), in index order — an absent index is skipped
without stopping later indices — and the output depends on no key
outside the scanned range, so `next18` and beyond are never read by the
full view. -/
theorem upcoming_slot_scan_independent (c c' : Channel) :
    (upcomingSlots c 17 =
      ((List.range' 1 17).filter (fun i => (getNext c i).isSome)).map
        (fun i => (getNext c i).getD c.now)) ∧
    (upcomingSlots c 5 =
      ((List.range' 1 5).filter (fun i => (getNext c i).isSome)).map
        (fun i => (getNext c i).getD c.now)) ∧
    ((∀ i, 1 ≤ i → i ≤ 17 → getNext c i = getNext c' i) →
      upcomingSlots c 17 = upcomingSlots c' 17) ∧
    ((∀ i, 1 ≤ i → i ≤ 5 → getNext c i = getNext c' i) →
      upcomingSlots c 5 = upcomingSlots c' 5) := by
  refine ⟨filterMap_eq_filter_map _ _ _, filterMap_eq_filter_map _ _ _, ?_, ?_⟩ <;>
  · intro hagree
    apply List.filterMap_congr
    intro i hi
    rw [List.mem_range'_1] at hi
    exact hagree i hi.1 (by omega)

/-- Witness for C10: a channel with `next1` absent and `next2`, `next5`
present emits the later slots anyway, and adding a `next18` key leaves
the schedule scan unchanged. -/
theorem upcoming_slot_scan_independent_witness :
    upcomingSlots ⟨testSlot, [(2, laterSlot), (5, testSlot)]⟩ 17 =
      upcomingSlots ⟨testSlot, [(2, laterSlot), (5, testSlot), (18, laterSlot)]⟩ 17 ∧
    upcomingSlots ⟨testSlot, [(2, laterSlot), (5, testSlot)]⟩ 5 =
      [laterSlot, testSlot] :=
  ⟨(upcoming_slot_scan_independent ⟨testSlot, [(2, laterSlot), (5, testSlot)]⟩
      ⟨testSlot, [(2, laterSlot), (5, testSlot), (18, laterSlot)]⟩).2.2.1
    (by decide),
   by decide⟩

/-- C8: mixtape resolution is case-insensitive (queries with equal
lowerings resolve identically), matches on either the alias or the
title field, takes the first matching entry in catalog order, and
returns `none` (reported as not found) exactly when no entry matches. -/
theorem resolve_mixtape_spec (catalog : List Mixtape) (name : String) :
    (∀ n', pyLower name = pyLower n' →
      resolve_mixtape catalog name = resolve_mixtape catalog n') ∧
    (∀ m, matchesName name m = true ↔
      (pyLower m.mixtape_alias = pyLower name ∨ pyLower m.title = pyLower name)) ∧
    (resolve_mixtape catalog name = none ↔
      ∀ m ∈ catalog, matchesName name m = false) ∧
    (∀ m, resolve_mixtape catalog name = some m ↔
      ∃ pre post, catalog = pre ++ m :: post ∧ matchesName name m = true ∧
        ∀ x ∈ pre, matchesName name x = false) := by
  refine ⟨?_, ?_, ?_, ?_⟩
  · intro n' hn
    have : matchesName name = matchesName n' := by
      funext m
      simp [matchesName, hn]
    rw [resolve_mixtape, resolve_mixtape, this]
  · intro m
    simp [matchesName]
  · rw [resolve_mixtape, List.find?_eq_none]
    constructor
    · intro h m hm
      simpa using h m hm
    · intro h m hm
      simp [h m hm]
  · intro m
    induction catalog with
    | nil =>
      simp [resolve_mixtape]
    | cons a rest ih =>
      rw [resolve_mixtape, List.find?_cons]
      cases hp : matchesName name a with
      | true =>
        simp only [cond_true]
        constructor
        · intro h
          cases h
          exact ⟨[], rest, rfl, hp, by simp⟩
        · rintro ⟨pre, post, heq, hm, hpre⟩
          cases pre with
          | nil =>
            simp at heq
            simp [heq.1]
          | cons b pre' =>
            simp at heq
            have : matchesName name a = false := heq.1 ▸ hpre b (by simp)
            rw [this] at hp
            cases hp
      | false =>
        simp only [cond_false]
        rw [← resolve_mixtape, ih]
        constructor
        · rintro ⟨pre, post, heq, hm, hpre⟩
          refine ⟨a :: pre, post, by simp [heq], hm, ?_⟩
          intro x hx
          rcases List.mem_cons.mp hx with rfl | hx'
          · exact hp
          · exact hpre x hx'
        · rintro ⟨pre, post, heq, hm, hpre⟩
          cases pre with
          | nil =>
            simp at heq
            rw [heq.1] at hp
            rw [hm] at hp
            cases hp
          | cons b pre' =>
            simp at heq
            refine ⟨pre', post, heq.2, hm, ?_⟩
            intro x hx
            exact hpre x (by simp [hx])

/-- Witness for C8: on the catalog of the spec's example, `"Poolside"`
and `"POOLSIDE"` resolve to the same entry (found via the alias), the
title also matches, and `"nope"` resolves to nothing. -/
theorem resolve_mixtape_spec_witness :
    resolve_mixtape [⟨"Poolside FM", "", "", "poolside", ""⟩] "Poolside" =
      resolve_mixtape [⟨"Poolside FM", "", "", "poolside", ""⟩] "POOLSIDE" ∧
    resolve_mixtape [⟨"Poolside FM", "", "", "poolside", ""⟩] "Poolside" =
      some ⟨"Poolside FM", "", "", "poolside", ""⟩ ∧
    resolve_mixtape [⟨"Poolside FM", "", "", "poolside", ""⟩] "nope" = none :=
  ⟨(resolve_mixtape_spec [⟨"Poolside FM", "", "", "poolside", ""⟩] "Poolside").1
      "POOLSIDE" (by decide),
   ((resolve_mixtape_spec [⟨"Poolside FM", "", "", "poolside", ""⟩] "Poolside").2.2.2
      ⟨"Poolside FM", "", "", "poolside", ""⟩).mpr
      ⟨[], [], rfl, by decide, by simp⟩,
   (resolve_mixtape_spec [⟨"Poolside FM", "", "", "poolside", ""⟩] "nope").2.2.1.mpr
      (by decide)⟩

/-- C5: whenever `format_time` succeeds (the timestamp is valid), the
result is the parsed instant converted to the local timezone and
rendered as exactly 5 characters of zero-padded 24-hour `HH:MM`
(`hour < 24`, `minute < 60`, a colon in the middle). -/
theorem format_time_shape (tz : Int) (ts r : String)
    (hr : format_time tz ts = some r) :
    ∃ dt h m, fromisoformat (pyReplaceZ ts) = some dt ∧
      localHM dt tz = (h, m) ∧ h < 24 ∧ m < 60 ∧
      r = strftimeHM h m ∧ r.length = 5 := by
  unfold format_time at hr
  cases hp : fromisoformat (pyReplaceZ ts) with
  | none => rw [hp] at hr; simp at hr
  | some dt =>
    rw [hp] at hr
    simp at hr
    have hb := fromisoChars_hour_minute hp
    have hl := localHM_bounds dt tz hb.1 hb.2
    exact ⟨dt, (localHM dt tz).1, (localHM dt tz).2, rfl, rfl, hl.1, hl.2,
      hr.symm, hr ▸ strftimeHM_length ..⟩

/-- Witness for C5 at the timestamp of the repository's tests. -/
theorem format_time_shape_witness :
    ∃ dt h m, fromisoformat (pyReplaceZ "2024-03-14T15:30:00Z") = some dt ∧
      localHM dt 0 = (h, m) ∧ h < 24 ∧ m < 60 ∧
      "15:30" = strftimeHM h m ∧ ("15:30" : String).length = 5 :=
  format_time_shape 0 "2024-03-14T15:30:00Z" "15:30" (by decide)

/-- C6: when both endpoints format, `format_time_range` is exactly
`format_time(start) ++ " - " ++ format_time(end)`; the result has
exactly one `" - "` separator and the two halves are 5 characters
each.  Nothing relates the endpoints: no validation that the end
follows the start. -/
theorem format_time_range_spec (tz : Int) (sh : Slot) (a b : String)
    (ha : format_time tz sh.start_timestamp = some a)
    (hb : format_time tz sh.end_timestamp = some b) :
    format_time_range tz sh = some (a ++ " - " ++ b) ∧
    a.length = 5 ∧ b.length = 5 ∧
    countSub (" - ".data) ((a ++ " - " ++ b).data) = 1 := by
  obtain ⟨dta, h1, m1, -, -, -, -, hae, hal⟩ := format_time_shape tz _ a ha
  obtain ⟨dtb, h2, m2, -, -, -, -, hbe, hbl⟩ := format_time_shape tz _ b hb
  refine ⟨?_, hal, hbl, ?_⟩
  · unfold format_time_range
    rw [ha, hb]
  · have hdata : (a ++ " - " ++ b).data =
        a.data ++ ' ' :: '-' :: ' ' :: b.data := by
      simp [String.data_append]
    rw [hdata]
    have hsep : (" - " : String).data = [' ', '-', ' '] := rfl
    rw [hsep]
    apply countSub_sep_one
    · intro c hc
      rcases (hae ▸ strftimeHM_chars h1 m1) c hc with hd | rfl
      · exact digit_ne_space hd
      · decide
    · intro c hc
      rcases (hbe ▸ strftimeHM_chars h2 m2) c hc with hd | rfl
      · exact ⟨digit_ne_space hd, digit_ne_dash hd⟩
      · exact ⟨by decide, by decide⟩

/-- Witness for C6, on a slot whose end precedes its start — the range
still formats, with one separator and two 5-character halves. -/
theorem format_time_range_spec_witness :
    format_time_range 0 ⟨"X", "2024-03-14T17:00:00Z", "2024-03-14T15:00:00Z"⟩ =
      some ("17:00" ++ " - " ++ "15:00") ∧
    ("17:00" : String).length = 5 ∧ ("15:00" : String).length = 5 ∧
    countSub (" - ".data) (("17:00" ++ " - " ++ "15:00" : String).data) = 1 :=
  format_time_range_spec 0 ⟨"X", "2024-03-14T17:00:00Z", "2024-03-14T15:00:00Z"⟩
    "17:00" "15:00" (by decide) (by decide)

/-- C7: `format_time` succeeds exactly on the valid ISO-8601 UTC
timestamps — including those with a trailing literal `Z` as UTC offset
(the `Z` is normalised to `+00:00` before parsing) — and fails with a
`ParseError` (`none`) exactly on the invalid ones. -/
theorem format_time_iff_valid (tz : Int) (s : String) :
    (format_time tz s).isSome = isValidISO8601 s := by
  unfold format_time fromisoformat isValidISO8601 pyReplaceZ
  rw [Option.isSome_map']
  show (fromisoChars (replaceZ s.data)).isSome = validIsoChars s.data
  cases hf : fromisoChars (replaceZ s.data) with
  | none =>
    cases hv : validIsoChars s.data with
    | false => rfl
    | true =>
      have hp := parse_of_valid hv
      rw [hf] at hp
      cases hp
  | some dt =>
    rw [valid_of_parse hf]
    rfl

end NTSCli
